import Mathlib

/-!
A shallow embedding of the `repl` Go package: the dispatch-loop engine
(`repl.go`) and the ring-buffer history (`history.go`), together with
theorems checking the repository's specification against the code.

Conventions of the embedding:
* Go errors returned by matchers / handlers / hooks / prompters are the
  closed type `GoError` below; a `nil` Go error is `Option.none`.
* Writes to the output sink are modelled as one concatenated `String`
  (an `fmt.Fprint` of the empty string writes nothing, which string
  concatenation reflects).
* Go panics and failing machine operations (nil function call, index out
  of range, division by zero in `%`) are modelled with `Option` /
  dedicated outcome constructors.
* Go's `%` on `int` truncates toward zero, which is `Int.tmod`.
-/

/-- The error values that flow through the engine, mirroring the Go code:
`ErrNoMatch`, `ErrExit`, the `repl.Error{Message, Fatal}` struct, and any
other (infrastructure) error such as a read failure. -/
inductive GoError where
  | noMatch
  | exitErr
  | replError (message : String) (fatal : Bool)
  | other (message : String)
deriving DecidableEq

/-- `type Matcher func(string) error` -/
abbrev Matcher := String → Option GoError

/-- `type Handler func(*Context) (string, error)`; the only Context field
handlers read in this model is `ctx.Input`. -/
abbrev Handler := String → String × Option GoError

/-- `type Hook func(*Context) (string, error)` -/
abbrev Hook := String → String × Option GoError

/-- `type Prompter func(*Context) (string, error)` -/
abbrev Prompter := String → String × Option GoError

/-- `type Command struct { Name, Usage string; Match Matcher; Handle Handler }` -/
structure Command where
  name : String
  usage : String
  matchFn : Matcher
  handleFn : Handler

/-- The engine configuration: the fields of `type Repl struct` that the
dispatch logic reads.  A `none` prompt or hook is a nil Go function
value. -/
structure Repl where
  commands : List Command
  prompt : Option Prompter
  preRun : Option Hook
  preRead : Option Hook
  postEval : Option Hook
  postRun : Option Hook

/-- `New()`: commands, prompt and all hooks start as Go nil values. -/
def newRepl : Repl :=
  { commands := [], prompt := none, preRun := none, preRead := none,
    postEval := none, postRun := none }

/-- How scanning the command chain for one input line ends: fall through to
the post-eval hook, exit cleanly (`ErrExit` from a handler), or abort the
loop with an error. -/
inductive LineOutcome where
  | next
  | exitClean
  | fail (e : GoError)
deriving DecidableEq

/-- Observable result of scanning the command chain for one line: what was
written to the output, which commands' Handlers ran (by name, in order),
and how the scan ended. -/
structure LineResult where
  printed : String
  handled : List String
  outcome : LineOutcome
deriving DecidableEq

/-- The handler half of the loop body in `Repl.runLoop` (`repl.go`): runs
`command.Handle` and classifies its error exactly as the chain of
`errors.Is(err, ErrExit)` / `errors.As(err, &replErr)` / `err != nil` /
`output != ""` checks does.  `pre` is output already produced by the
matcher branch for this command. -/
def handleMatched (c : Command) (input : String) (pre : String) : LineResult :=
  match c.handleFn input with
  | (_, some GoError.exitErr) => ⟨pre, [c.name], LineOutcome.exitClean⟩
  | (_, some (GoError.replError m true)) =>
      ⟨pre, [c.name], LineOutcome.fail (GoError.replError m true)⟩
  | (_, some (GoError.replError m false)) =>
      ⟨pre ++ m ++ "\n", [c.name], LineOutcome.next⟩
  | (_, some e) => ⟨pre, [c.name], LineOutcome.fail e⟩
  | (out, none) =>
      ⟨pre ++ (if out = "" then "" else out ++ "\n"), [c.name], LineOutcome.next⟩

/-- The `for _, command := range r.Commands` loop of `Repl.runLoop`
(`repl.go`): front to back, `command.Match` classified as
`errors.Is(err, ErrNoMatch)` / `errors.As(err, &replErr)` / `err != nil`,
then the handler, then the unconditional `break`. -/
def processLine : List Command → String → LineResult
  | [], _ => ⟨"", [], LineOutcome.next⟩
  | c :: rest, input =>
    match c.matchFn input with
    | some GoError.noMatch => processLine rest input
    | some (GoError.replError m true) =>
        ⟨"", [], LineOutcome.fail (GoError.replError m true)⟩
    | some (GoError.replError m false) => handleMatched c input (m ++ "\n")
    | some e => ⟨"", [], LineOutcome.fail e⟩
    | none => handleMatched c input ""

/-- Result of `Repl.printPrompt`: a nil `Prompt` function is a Go panic. -/
inductive PromptRes where
  | promptPanic
  | promptErr (e : GoError)
  | promptOk (printed : String)
deriving DecidableEq

/-- `Repl.printPrompt` (`repl.go`): call the prompter, propagate its error,
otherwise `fmt.Fprint` its text. -/
def printPromptM : Option Prompter → String → PromptRes
  | none, _ => PromptRes.promptPanic
  | some p, ctxInput =>
    match p ctxInput with
    | (_, some e) => PromptRes.promptErr e
    | (s, none) => PromptRes.promptOk s

/-- `Repl.runHook` (`repl.go`): nil hooks are skipped; an error is returned
as-is with nothing printed; otherwise non-empty text is printed. -/
def runHookM : Option Hook → String → String × Option GoError
  | none, _ => ("", none)
  | some hk, ctxInput =>
    match hk ctxInput with
    | (_, some e) => ("", some e)
    | (s, none) => (s, none)

/-- ASCII white space, as `strings.TrimSpace` strips it from the line
(`' '`, tab, newline, carriage return, vertical tab, form feed). -/
def isSpaceChar (ch : Char) : Bool :=
  ch = ' ' || ch = '\t' || ch = '\n' || ch = '\r' || ch = '\x0b' || ch = '\x0c'

def dropLeadingSpaces : List Char → List Char
  | [] => []
  | ch :: rest => if isSpaceChar ch then dropLeadingSpaces rest else ch :: rest

/-- `strings.TrimSpace` as `readInput` applies it: strip white space from
both ends of the line.  (Defined over the character list so that it is
structurally recursive; Go also strips non-ASCII Unicode space, which no
claim depends on.) -/
def trimSpace (s : String) : String :=
  ⟨(dropLeadingSpaces (dropLeadingSpaces s.data.reverse).reverse)⟩

/-- How `Repl.runLoop` ends: `return nil` after `ErrExit`, an error, or a
panic from calling a nil prompter. -/
inductive LoopEnd where
  | clean
  | err (e : GoError)
  | panicEnd
deriving DecidableEq

/-- Observable result of `Repl.runLoop`: everything printed, handlers run,
the final `ctx.Input`, and how the loop ended. -/
structure LoopResult where
  printed : String
  handled : List String
  ctxInput : String
  outcome : LoopEnd
deriving DecidableEq

/-- `Repl.runLoop` (`repl.go`).  The input source is the list of raw lines
a successful `ReadString('\n')` would deliver; an empty list is the
end-of-stream read error.  `readInput` trims surrounding whitespace and
stores the line into `ctx.Input` (reset to `""` on a read error, as the
Go multiple-assignment does). -/
def Repl.runLoop (r : Repl) : List String → String → LoopResult
  | inputs, ctxInput =>
    match runHookM r.preRead ctxInput with
    | (_, some e) => ⟨"", [], ctxInput, LoopEnd.err e⟩
    | (p1, none) =>
      match printPromptM r.prompt ctxInput with
      | PromptRes.promptPanic => ⟨p1, [], ctxInput, LoopEnd.panicEnd⟩
      | PromptRes.promptErr e => ⟨p1, [], ctxInput, LoopEnd.err e⟩
      | PromptRes.promptOk p2 =>
        match inputs with
        | [] => ⟨p1 ++ p2, [], "", LoopEnd.err (GoError.other "EOF")⟩
        | line :: rest =>
          let input := trimSpace line
          let lr := processLine r.commands input
          match lr.outcome with
          | LineOutcome.exitClean =>
              ⟨p1 ++ p2 ++ lr.printed, lr.handled, input, LoopEnd.clean⟩
          | LineOutcome.fail e =>
              ⟨p1 ++ p2 ++ lr.printed, lr.handled, input, LoopEnd.err e⟩
          | LineOutcome.next =>
            match runHookM r.postEval input with
            | (_, some e) =>
                ⟨p1 ++ p2 ++ lr.printed, lr.handled, input, LoopEnd.err e⟩
            | (p3, none) =>
              let res := Repl.runLoop r rest input
              ⟨p1 ++ p2 ++ lr.printed ++ p3 ++ res.printed,
               lr.handled ++ res.handled, res.ctxInput, res.outcome⟩

/-- How `Repl.Run` ends: nil error, an error value, or a panic. -/
inductive RunEnd where
  | ok
  | err (e : GoError)
  | panicEnd
deriving DecidableEq

/-- Observable result of `Repl.Run`. -/
structure RunResult where
  printed : String
  handled : List String
  outcome : RunEnd
deriving DecidableEq

/-- `Repl.Run` (`repl.go`): fresh context (`ctx.Input = ""`), pre-run hook,
the loop, then — only after a clean loop exit — the post-run hook. -/
def Repl.run (r : Repl) (inputs : List String) : RunResult :=
  match runHookM r.preRun "" with
  | (_, some e) => ⟨"", [], RunEnd.err e⟩
  | (p0, none) =>
    let lr := Repl.runLoop r inputs ""
    match lr.outcome with
    | LoopEnd.panicEnd => ⟨p0 ++ lr.printed, lr.handled, RunEnd.panicEnd⟩
    | LoopEnd.err e => ⟨p0 ++ lr.printed, lr.handled, RunEnd.err e⟩
    | LoopEnd.clean =>
      match runHookM r.postRun lr.ctxInput with
      | (_, some e) => ⟨p0 ++ lr.printed, lr.handled, RunEnd.err e⟩
      | (p4, none) => ⟨p0 ++ lr.printed ++ p4, lr.handled, RunEnd.ok⟩

/-- An abstract compiled regular expression (`*regexp.Regexp` from the Go
standard library, which is outside this repository): all the engine uses
is `MatchString`. -/
structure Regex where
  matchString : String → Bool

/-- One invocation of the closure returned by `RegexMatcher` (`repl.go`).
`cache` is the captured `matcher *regexp.Regexp` variable (`none` = Go
nil, its value when the closure is created); `compile` is the standard
library's `regexp.Compile`, abstract here, with `none` for a compilation
error — on error Go's `Compile` returns a nil `*regexp.Regexp`, so the
cache stays `none`.  Returns the updated cache and the Go error. -/
def regexMatcherStep (compile : String → Option Regex) (pattern : String)
    (cache : Option Regex) (s : String) : Option Regex × Option GoError :=
  match cache with
  | none =>
    match compile pattern with
    | none => (none, some (GoError.replError "invalid regular expression" true))
    | some re =>
      (some re, if re.matchString s then none else some GoError.noMatch)
  | some re => (some re, if re.matchString s then none else some GoError.noMatch)

/-- Invoke the `RegexMatcher` closure once per input, threading its
captured cache, and collect the returned errors. -/
def regexMatcherRunAll (compile : String → Option Regex) (pattern : String)
    (cache : Option Regex) : List String → List (Option GoError)
  | [] => []
  | s :: rest =>
    let step := regexMatcherStep compile pattern cache s
    step.2 :: regexMatcherRunAll compile pattern step.1 rest

/-- `type History struct { Values []string; Head int; Cap int }`
(`history.go`). -/
structure History where
  Values : List String
  Head : Int
  Cap : Int
deriving DecidableEq

/-- `NewHistory(size int)` (`history.go`): panics (`none`) on a negative
size, otherwise `make([]string, size)`, `Head: size`, `Cap: size - 1`. -/
def NewHistory (size : Int) : Option History :=
  if size < 0 then none
  else some { Values := List.replicate size.toNat "", Head := size, Cap := size - 1 }

/-- Go's conversion `int(offset)` of a 64-bit `uint` value: a wrapping
reinterpretation, so offsets at or above `2^63` become negative
two's-complement integers (`2^64 - 1` reads as `-1`). -/
def intOfUInt (n : Nat) : Int :=
  if n % 2 ^ 64 < 2 ^ 63 then ((n % 2 ^ 64 : Nat) : Int)
  else ((n % 2 ^ 64 : Nat) : Int) - 2 ^ 64

/-- `History.Get` (`history.go`):
`h.Values[((h.Head-int(offset))%h.Cap+h.Cap)%h.Cap]`.
`int(offset)` is the wrapping `uint → int` conversion `intOfUInt`;
Go's `%` is `Int.tmod`; `%` by zero is a run-time panic, as is an index
outside the slice, both modelled as `none`. -/
def History.Get (h : History) (offset : Nat) : Option String :=
  if h.Cap = 0 then none
  else
    let idx := (((h.Head - intOfUInt offset).tmod h.Cap + h.Cap).tmod h.Cap)
    if idx < 0 then none else h.Values[idx.toNat]?

/-- `History.Append` (`history.go`): `h.Head = (h.Head + 1) % h.Cap` then
`h.Values[h.Head] = s`; `%` by zero and out-of-range indices panic. -/
def History.Append (h : History) (s : String) : Option History :=
  if h.Cap = 0 then none
  else
    let hd := (h.Head + 1).tmod h.Cap
    if 0 ≤ hd ∧ hd.toNat < h.Values.length then
      some { Values := h.Values.set hd.toNat s, Head := hd, Cap := h.Cap }
    else none

/-- A sequence of `Append` calls; any panic aborts the sequence. -/
def History.appendAll (h : History) : List String → Option History
  | [] => some h
  | s :: rest =>
    match h.Append s with
    | none => none
    | some h' => History.appendAll h' rest

/-- The states a `History` reaches through `NewHistory(size)` with
`size ≥ 2` followed by any number of `Append`s: positive modulus that
fits inside the slice, and a head from which Go's `(Head + 1) % Cap`
is non-negative. -/
def History.Inv (h : History) : Prop :=
  1 ≤ h.Cap ∧ h.Cap ≤ (h.Values.length : Int) ∧ 0 ≤ h.Head + 1

instance (h : History) : Decidable h.Inv := by
  unfold History.Inv; infer_instance

/-- A catch-all command whose handler echoes the input
(`AlwaysMatcher` plus an echoing handler, as in the calculator example). -/
def echoCmd : Command :=
  ⟨"echo", "", fun _ => none, fun input => (input, none)⟩

/-- A quit command: `StringMatcher("quit")` plus a handler returning
`ErrExit`. -/
def quitCmd : Command :=
  ⟨"quit", "",
   fun s => if s = "quit" then none else some GoError.noMatch,
   fun _ => ("", some GoError.exitErr)⟩

/-- An always-matching command whose handler returns `ErrExit`. -/
def exitAllCmd : Command :=
  ⟨"exit-all", "", fun _ => none, fun _ => ("", some GoError.exitErr)⟩

/-- A command whose matcher reports a non-fatal `repl.Error` and whose
handler produces output. -/
def warnCmd : Command :=
  ⟨"warn", "", fun _ => some (GoError.replError "careful" false),
   fun _ => ("done", none)⟩

/-- A repl whose only command exits and whose post-run hook fails. -/
def replExitBoom : Repl :=
  { commands := [quitCmd], prompt := some (fun _ => ("> ", none)),
    preRun := none, preRead := none,
    postEval := some (fun _ => ("POST", none)),
    postRun := some (fun _ => ("", some (GoError.other "boom"))) }

/-- A repl whose only command exits and whose hooks all succeed. -/
def replExitOk : Repl :=
  { commands := [quitCmd], prompt := some (fun _ => ("> ", none)),
    preRun := none, preRead := none,
    postEval := some (fun _ => ("POST", none)),
    postRun := some (fun _ => ("bye", none)) }

/-- `New()` followed by `WithPreRunHook` installing a failing hook. -/
def replPreRunBoom : Repl :=
  { newRepl with preRun := some (fun _ => ("", some (GoError.other "x"))) }

example :
    processLine [] "x" = ⟨"", [], LineOutcome.next⟩ := by decide

example :
    Repl.run newRepl ["x"] = ⟨"", [], RunEnd.panicEnd⟩ := by decide

example : NewHistory 3 = some ⟨["", "", ""], 3, 2⟩ := by decide

example :
    (NewHistory 3).bind (fun h => h.Append "a") = some ⟨["a", "", ""], 0, 2⟩ := by
  decide

example : (NewHistory 1).bind (fun h => h.Append "a") = none := by decide

example : (NewHistory 0).bind (fun h => h.Append "a") = none := by decide

example :
    (NewHistory 4).bind (fun h => h.Append "x") = some ⟨["", "", "x", ""], 2, 3⟩ := by
  decide

example : History.Get ⟨["d", "b", "c"], 0, 3⟩ 5 = some "b" := by decide

example : History.Get ⟨["d", "b", "c"], 0, 3⟩ 1 = some "c" := by decide

theorem neg_lt_tmod (x : Int) {c : Int} (hc : 0 < c) : -c < x.tmod c := by
  match x, c with
  | Int.ofNat m, c =>
    have h0 : (0 : Int) ≤ (Int.ofNat m).tmod c := Int.tmod_nonneg c (Int.ofNat_nonneg m)
    omega
  | Int.negSucc m, Int.ofNat n =>
    have hn : 0 < n := Int.ofNat_pos.mp hc
    show -(n : Int) < -(((m + 1) % n : Nat) : Int)
    have : (m + 1) % n < n := Nat.mod_lt _ hn
    omega
  | Int.negSucc m, Int.negSucc n =>
    exact absurd hc (Int.lt_asymm (Int.negSucc_lt_zero n))

theorem tmod_emod (x c : Int) : x.tmod c % c = x % c := by
  rw [Int.tmod_def, Int.sub_eq_add_neg, ← Int.mul_neg, Int.add_mul_emod_self_left]

/-- The index expression `((x % c) + c) % c` of the Go code, with `%` read
as truncation (`tmod`), computes the Euclidean remainder. -/
theorem tmod_add_tmod_eq_emod (x : Int) {c : Int} (hc : 0 < c) :
    (x.tmod c + c).tmod c = x % c := by
  have h1 : 0 ≤ x.tmod c + c := by
    have := neg_lt_tmod x hc
    omega
  rw [Int.tmod_eq_emod h1 hc.le]
  have h2 : x.tmod c + c = x.tmod c + c * 1 := by ring
  rw [h2, Int.add_mul_emod_self_left, tmod_emod]

/-- Below `2^63` — within `int` range — the `uint → int` conversion is
value-preserving. -/
theorem intOfUInt_eq_self {n : Nat} (hn : n < 2 ^ 63) : intOfUInt n = (n : Int) := by
  unfold intOfUInt
  rw [Nat.mod_eq_of_lt (show n < 2 ^ 64 by omega), if_pos hn]

/-- `Get` with a positive modulus and an offset inside `int` range reads
the slot at the Euclidean remainder `(Head - offset) mod Cap`. -/
theorem History.get_eq_emod (h : History) (hc : 1 ≤ h.Cap) (offset : Nat)
    (hoff : offset < 2 ^ 63) :
    h.Get offset = h.Values[((h.Head - (offset : Int)) % h.Cap).toNat]? := by
  have hc0 : h.Cap ≠ 0 := by omega
  have hpos : 0 < h.Cap := by omega
  unfold History.Get
  rw [if_neg hc0, intOfUInt_eq_self hoff, tmod_add_tmod_eq_emod _ hpos]
  have hnn : 0 ≤ (h.Head - (offset : Int)) % h.Cap := Int.emod_nonneg _ hc0
  rw [if_neg (by omega)]

/-- A successful `Append` sets `Head` to `(Head + 1) % Cap` (truncated
modulus as in Go) and writes `s` there. -/
theorem History.append_spec (h : History) (s : String) (hInv : h.Inv) :
    h.Append s =
      some { Values := h.Values.set ((h.Head + 1).tmod h.Cap).toNat s,
             Head := (h.Head + 1).tmod h.Cap, Cap := h.Cap } := by
  obtain ⟨hc, hlen, hhd⟩ := hInv
  have hc0 : h.Cap ≠ 0 := by omega
  have hpos : 0 < h.Cap := by omega
  have h0 : 0 ≤ (h.Head + 1).tmod h.Cap := Int.tmod_nonneg _ (by omega)
  have h1 : (h.Head + 1).tmod h.Cap < h.Cap := Int.tmod_lt_of_pos _ hpos
  have h2 : ((h.Head + 1).tmod h.Cap).toNat < h.Values.length := by omega
  unfold History.Append
  rw [if_neg hc0, if_pos ⟨h0, h2⟩]

/-- A successful `Append` preserves the reachable-state invariant. -/
theorem History.append_inv (h : History) (s : String) (hInv : h.Inv) :
    ∃ h', h.Append s = some h' ∧ h'.Inv ∧
      h'.Cap = h.Cap ∧ h'.Head = (h.Head + 1).tmod h.Cap ∧
      h'.Values = h.Values.set ((h.Head + 1).tmod h.Cap).toNat s := by
  obtain ⟨hc, hlen, hhd⟩ := hInv
  refine ⟨_, History.append_spec h s ⟨hc, hlen, hhd⟩, ?_, rfl, rfl, rfl⟩
  have h0 : 0 ≤ (h.Head + 1).tmod h.Cap := Int.tmod_nonneg _ (by omega)
  unfold History.Inv
  simp only [List.length_set]
  omega

/-- After a successful `Append`, `Get 0` returns the value just written. -/
theorem History.get_zero_after_append (h : History) (s : String) (hInv : h.Inv) :
    ∃ h', h.Append s = some h' ∧ h'.Inv ∧ h'.Get 0 = some s := by
  obtain ⟨h', happ, hinv', hcap, hhead, hvals⟩ := History.append_inv h s hInv
  obtain ⟨hc, hlen, hhd⟩ := hInv
  have hpos : 0 < h.Cap := by omega
  have h0 : 0 ≤ (h.Head + 1).tmod h.Cap := Int.tmod_nonneg _ (by omega)
  have h1 : (h.Head + 1).tmod h.Cap < h.Cap := Int.tmod_lt_of_pos _ hpos
  refine ⟨h', happ, hinv', ?_⟩
  rw [History.get_eq_emod h' (by omega) 0 (by norm_num), hhead, hcap, hvals]
  have hsub : h'.Head - ((0 : Nat) : Int) = (h.Head + 1).tmod h.Cap := by
    rw [hhead]; simp
  rw [hhead] at hsub
  rw [show ((0 : Nat) : Int) = 0 from rfl, Int.sub_zero]
  rw [Int.emod_eq_of_lt h0 h1]
  have hidx : ((h.Head + 1).tmod h.Cap).toNat < h.Values.length := by omega
  rw [List.getElem?_set_self (by omega)]

/-- Any sequence of `Append`s from a reachable state succeeds and stays
reachable. -/
theorem History.appendAll_inv (ls : List String) :
    ∀ (h : History), h.Inv → ∃ h', h.appendAll ls = some h' ∧ h'.Inv := by
  induction ls with
  | nil => exact fun h hInv => ⟨h, rfl, hInv⟩
  | cons s rest ih =>
    intro h hInv
    obtain ⟨h', happ, hinv', _, _, _⟩ := History.append_inv h s hInv
    obtain ⟨h'', hall, hinv''⟩ := ih h' hinv'
    exact ⟨h'', by simp [History.appendAll, happ, hall], hinv''⟩

theorem History.appendAll_append (l1 l2 : List String) :
    ∀ (h : History),
      h.appendAll (l1 ++ l2) = (h.appendAll l1).bind (fun h' => h'.appendAll l2) := by
  induction l1 with
  | nil => intro h; simp [History.appendAll]
  | cons s rest ih =>
    intro h
    simp only [List.cons_append, History.appendAll]
    cases happ : h.Append s with
    | none => simp
    | some h' => simpa using ih h'

/-- `NewHistory` with `size ≥ 2` produces a reachable state with the
`Cap = size - 1`, `Head = size` initialisation of the Go code. -/
theorem NewHistory_inv (size : Int) (hsize : 2 ≤ size) :
    ∃ h0, NewHistory size = some h0 ∧ h0.Inv ∧
      h0.Cap = size - 1 ∧ h0.Head = size ∧
      h0.Values = List.replicate size.toNat "" := by
  have hn : ¬ size < 0 := by omega
  refine ⟨_, by rw [NewHistory, if_neg hn], ?_, rfl, rfl, rfl⟩
  unfold History.Inv
  simp only [List.length_replicate]
  omega

/-- Claim C2 counterexample: with `S = 1` (allowed by the claim's `S ≥ 1`)
the very first `Append` divides by `Cap = 0` and panics, so `Get(0)` after
the append is not the appended value — the whole run aborts. -/
theorem historyGetZeroLatest_cex :
    ((NewHistory 1).bind (fun h => h.Append "a")).bind (fun h => h.Get 0) = none ∧
    ¬ ((NewHistory 1).bind (fun h => h.Append "a")).bind (fun h => h.Get 0)
        = some "a" := by
  decide

/-- Claim C2 (amended to `S ≥ 2`): for every history size `S ≥ 2` and every
sequence of appends, after each append `Get 0` returns the value appended
most recently. -/
theorem historyGetZeroLatest (size : Int) (hsize : 2 ≤ size)
    (pre : List String) (s : String) :
    ∃ h0 h1, NewHistory size = some h0 ∧
      h0.appendAll (pre ++ [s]) = some h1 ∧ h1.Get 0 = some s := by
  obtain ⟨h0, hnew, hinv0, _, _, _⟩ := NewHistory_inv size hsize
  obtain ⟨hmid, hall, hinvmid⟩ := History.appendAll_inv pre h0 hinv0
  obtain ⟨h1, happ, hinv1, hget⟩ := History.get_zero_after_append hmid s hinvmid
  refine ⟨h0, h1, hnew, ?_, hget⟩
  rw [History.appendAll_append pre [s] h0, hall]
  simp [History.appendAll, happ]

/-- Claim C2 witness: size 3, appends `"x"` then `"y"`. -/
theorem historyGetZeroLatest_w :
    ∃ h0 h1, NewHistory 3 = some h0 ∧
      h0.appendAll (["x"] ++ ["y"]) = some h1 ∧ h1.Get 0 = some "y" :=
  historyGetZeroLatest 3 (by decide) ["x"] "y"

/-- Claim C3 counterexample: with size 4 the first `Append` after
construction writes at slot index 2, not index 0 — the `head = size`
sentinel lands the first value on index `(size+1) mod (size-1)`, which is
0 only for sizes 2 and 3. -/
theorem historyInitSentinel_cex :
    (NewHistory 4).bind (fun h => h.Append "x") = some ⟨["", "", "x", ""], 2, 3⟩ ∧
    ¬ ((NewHistory 4).bind (fun h => h.Append "x")).map History.Head = some 0 := by
  decide

/-- Claim C3 (amended): for every non-negative size, `NewHistory(size)`
initialises `Cap = size - 1` and `Head = size`; for `size ≥ 2` the first
`Append` then writes its value at slot index `(size+1) mod (size-1)`
(0 exactly when the size is 2 or 3; for sizes 0 and 1 the first `Append`
panics instead). -/
theorem historyInitSentinel (size : Int) (hsize : 0 ≤ size) :
    ∃ h, NewHistory size = some h ∧ h.Cap = size - 1 ∧ h.Head = size ∧
      (2 ≤ size → ∀ s, ∃ h', h.Append s = some h' ∧
        h'.Head = (size + 1).tmod (size - 1) ∧
        h'.Values = h.Values.set ((size + 1).tmod (size - 1)).toNat s) := by
  have hn : ¬ size < 0 := by omega
  refine ⟨_, by rw [NewHistory, if_neg hn], rfl, rfl, ?_⟩
  intro h2 s
  obtain ⟨h0, hnew, hinv0, hcap, hhead, hvals⟩ := NewHistory_inv size h2
  rw [NewHistory, if_neg hn] at hnew
  obtain ⟨h', happ, _, hcap', hhead', hvals'⟩ :=
    History.append_inv h0 s hinv0
  injection hnew with hnew
  subst hnew
  exact ⟨h', happ, by simpa using hhead', by simpa using hvals'⟩

/-- Claim C3 witness: size 2 — construction state and first append. -/
theorem historyInitSentinel_w :
    ∃ h, NewHistory 2 = some h ∧ h.Cap = 2 - 1 ∧ h.Head = 2 ∧
      (2 ≤ (2 : Int) → ∀ s, ∃ h', h.Append s = some h' ∧
        h'.Head = ((2 : Int) + 1).tmod (2 - 1) ∧
        h'.Values = h.Values.set (((2 : Int) + 1).tmod (2 - 1)).toNat s) :=
  historyInitSentinel 2 (by decide)

/-- Claim C4 counterexample: `NewHistory` accepts sizes 0 and 1 (they are
non-negative, so validation passes), yet `Append` then panics — modulus
zero for size 1, index out of range for size 0. -/
theorem historyAppendTotal_cex :
    (NewHistory 1).bind (fun h => h.Append "a") = none ∧
    (NewHistory 0).bind (fun h => h.Append "b") = none := by
  decide

/-- Claim C4 (amended to sizes ≥ 2): on every state reachable from
`NewHistory(size)` with `size ≥ 2`, `Append` always succeeds, advancing
the head by one modulo `Cap` and writing the line at the new head; in
particular every sequence of appends succeeds. -/
theorem historyAppendTotal :
    (∀ (h : History) (s : String), h.Inv →
      h.Append s =
        some { Values := h.Values.set ((h.Head + 1).tmod h.Cap).toNat s,
               Head := (h.Head + 1).tmod h.Cap, Cap := h.Cap }) ∧
    (∀ (size : Int), 2 ≤ size → ∀ (ls : List String),
      ∃ h0 h', NewHistory size = some h0 ∧ h0.appendAll ls = some h') := by
  constructor
  · exact fun h s hInv => History.append_spec h s hInv
  · intro size hsize ls
    obtain ⟨h0, hnew, hinv0, _, _, _⟩ := NewHistory_inv size hsize
    obtain ⟨h', hall, _⟩ := History.appendAll_inv ls h0 hinv0
    exact ⟨h0, h', hnew, hall⟩

/-- Claim C4 witness: a concrete reachable state and a concrete run of
three appends from `NewHistory 2`. -/
theorem historyAppendTotal_w :
    History.Append ⟨["", ""], 2, 1⟩ "a" = some ⟨["a", ""], 0, 1⟩ ∧
    ∃ h0 h', NewHistory 2 = some h0 ∧ h0.appendAll ["a", "b", "c"] = some h' := by
  constructor
  · exact (historyAppendTotal.1 ⟨["", ""], 2, 1⟩ "a" (by decide)).trans (by decide)
  · exact historyAppendTotal.2 2 (by decide) ["a", "b", "c"]

/-- Claim C5 counterexample.  First: on the test state
`Values = ["d","b","c"], Head = 0, Cap = 3`, the offset `2^64 - 1` is
read through Go's wrapping `uint → int` conversion as `-1`, so `Get`
indexes slot 1 (`"b"`), while `Get((2^64-1) mod 3) = Get 0` indexes slot
0 (`"d"`): the claimed identity fails for offsets at or above `2^63`.
Second: on `NewHistory 1` (a constructible history) `Get` panics —
modulus zero — rather than wrapping, for any offset. -/
theorem historyGetWraps_cex :
    (History.Get ⟨["d", "b", "c"], 0, 3⟩ (2 ^ 64 - 1) = some "b" ∧
      History.Get ⟨["d", "b", "c"], 0, 3⟩ ((2 ^ 64 - 1) % 3) = some "d" ∧
      History.Get ⟨["d", "b", "c"], 0, 3⟩ (2 ^ 64 - 1)
        ≠ History.Get ⟨["d", "b", "c"], 0, 3⟩ ((2 ^ 64 - 1) % 3)) ∧
    (NewHistory 1).bind (fun h => h.Get 5) = none ∧
    (NewHistory 0).bind (fun h => h.Get 0) = none := by
  refine ⟨⟨by decide, by decide, by decide⟩, by decide, by decide⟩

/-- With a positive modulus, whenever `Append` succeeds, `Get 0` reads
back the value it wrote: offset 0 is the most recent slot. -/
theorem History.get_zero_of_append (h : History) (hc : 1 ≤ h.Cap) (s : String)
    (h' : History) (happ : h.Append s = some h') : h'.Get 0 = some s := by
  have hc0 : h.Cap ≠ 0 := by omega
  have hpos : 0 < h.Cap := by omega
  unfold History.Append at happ
  rw [if_neg hc0] at happ
  by_cases hg : 0 ≤ (h.Head + 1).tmod h.Cap ∧
      ((h.Head + 1).tmod h.Cap).toNat < h.Values.length
  · rw [if_pos hg] at happ
    injection happ with happ
    subst happ
    have h1 : (h.Head + 1).tmod h.Cap < h.Cap := Int.tmod_lt_of_pos _ hpos
    rw [History.get_eq_emod
      ⟨h.Values.set ((h.Head + 1).tmod h.Cap).toNat s, (h.Head + 1).tmod h.Cap, h.Cap⟩
      hc 0 (by norm_num)]
    rw [show ((0 : Nat) : Int) = 0 from rfl, Int.sub_zero]
    show (h.Values.set ((h.Head + 1).tmod h.Cap).toNat s)[
        ((h.Head + 1).tmod h.Cap % h.Cap).toNat]? = some s
    rw [Int.emod_eq_of_lt hg.1 h1]
    rw [List.getElem?_set_self (by omega)]
  · rw [if_neg hg] at happ
    exact absurd happ (by simp)

/-- Claim C5 (amended to positive modulus and in-int-range offsets): for
every history whose `Cap` is at least 1 and every offset below `2^63` —
offsets whose `uint → int` conversion is value-preserving —
`Get offset = Get (offset mod Cap)`: offsets wrap cyclically; whenever
`Cap` additionally fits inside the value slice (true of every reachable
state) `Get` succeeds rather than failing, and offset 0 addresses the
most recently appended value.  (Offsets at or above `2^63` reinterpret as
negative `int`s and index via two's-complement wrap instead.) -/
theorem historyGetWraps (h : History) (hc : 1 ≤ h.Cap) (offset : Nat)
    (hoff : offset < 2 ^ 63) :
    (h.Get offset = h.Get (offset % h.Cap.toNat) ∧
      (h.Cap ≤ (h.Values.length : Int) → ∃ v, h.Get offset = some v)) ∧
    (∀ (s : String) (h' : History), h.Append s = some h' → h'.Get 0 = some s) := by
  refine ⟨?_, fun s h' happ => History.get_zero_of_append h hc s h' happ⟩
  have hc0 : h.Cap ≠ 0 := by omega
  have hpos : 0 < h.Cap := by omega
  have hoff2 : offset % h.Cap.toNat < 2 ^ 63 :=
    lt_of_le_of_lt (Nat.mod_le offset h.Cap.toNat) hoff
  constructor
  · rw [History.get_eq_emod h hc offset hoff,
      History.get_eq_emod h hc (offset % h.Cap.toNat) hoff2]
    have hcast : ((offset % h.Cap.toNat : Nat) : Int) = (offset : Int) % h.Cap := by
      have h1 : ((offset : Int)) % ((h.Cap.toNat : Nat) : Int)
          = ((offset % h.Cap.toNat : Nat) : Int) := Int.ofNat_mod_ofNat offset h.Cap.toNat
      rw [← h1, Int.toNat_of_nonneg (by omega)]
    rw [hcast]
    have hmm : ((offset : Int) % h.Cap) % h.Cap = (offset : Int) % h.Cap :=
      Int.emod_emod_of_dvd _ dvd_rfl
    rw [Int.sub_emod h.Head ((offset : Int) % h.Cap) h.Cap, hmm,
      ← Int.sub_emod h.Head (offset : Int) h.Cap]
  · intro hlen
    rw [History.get_eq_emod h hc offset hoff]
    have h0 : 0 ≤ (h.Head - (offset : Int)) % h.Cap := Int.emod_nonneg _ hc0
    have h1 : (h.Head - (offset : Int)) % h.Cap < h.Cap := Int.emod_lt_of_pos _ hpos
    have h2 : ((h.Head - (offset : Int)) % h.Cap).toNat < h.Values.length := by omega
    exact ⟨_, List.getElem?_eq_getElem h2⟩

/-- Claim C5 witness: the wrapped-around history from the repository's own
tests, offset 5 with modulus 3. -/
theorem historyGetWraps_w :
    (History.Get ⟨["d", "b", "c"], 0, 3⟩ 5
        = History.Get ⟨["d", "b", "c"], 0, 3⟩ (5 % (3 : Int).toNat) ∧
      ((3 : Int) ≤ ((["d", "b", "c"] : List String).length : Int) →
        ∃ v, History.Get ⟨["d", "b", "c"], 0, 3⟩ 5 = some v)) ∧
    (∀ (s : String) (h' : History),
      History.Append ⟨["d", "b", "c"], 0, 3⟩ s = some h' → h'.Get 0 = some s) :=
  historyGetWraps ⟨["d", "b", "c"], 0, 3⟩ (by decide) 5 (by decide)

/-- Whatever the handler does, exactly that command's handler ran. -/
theorem handleMatched_handled (c : Command) (input pre : String) :
    (handleMatched c input pre).handled = [c.name] := by
  unfold handleMatched
  split <;> rfl

/-- Whatever the handler does, output already printed by the matcher
branch stays at the front of this command's output. -/
theorem handleMatched_printed (c : Command) (input pre : String) :
    ∃ t, (handleMatched c input pre).printed = pre ++ t := by
  unfold handleMatched
  rcases h : c.handleFn input with ⟨out, e⟩
  match e with
  | none => exact ⟨_, rfl⟩
  | some GoError.exitErr => exact ⟨"", (String.append_empty pre).symm⟩
  | some GoError.noMatch => exact ⟨"", (String.append_empty pre).symm⟩
  | some (GoError.other m) => exact ⟨"", (String.append_empty pre).symm⟩
  | some (GoError.replError m true) => exact ⟨"", (String.append_empty pre).symm⟩
  | some (GoError.replError m false) =>
      exact ⟨m ++ "\n", String.append_assoc pre m "\n"⟩

/-- Claim C1: the dispatch loop evaluates commands front-to-back and the
first command whose Matcher matches (returns anything but `ErrNoMatch`)
wins: the scan result never depends on the commands after it, and at most
one Handler runs per input line. -/
theorem firstMatchWins :
    (∀ (c : Command) (rest rest' : List Command) (input : String),
        c.matchFn input ≠ some GoError.noMatch →
        processLine (c :: rest) input = processLine (c :: rest') input) ∧
    (∀ (cmds : List Command) (input : String),
        (processLine cmds input).handled.length ≤ 1) := by
  constructor
  · intro c rest rest' input hne
    unfold processLine
    cases h : c.matchFn input with
    | none => rfl
    | some g =>
      cases g with
      | noMatch => exact absurd h hne
      | exitErr => rfl
      | other m => rfl
      | replError m f => cases f <;> rfl
  · intro cmds input
    induction cmds with
    | nil => simp [processLine]
    | cons c rest ih =>
      unfold processLine
      cases h : c.matchFn input with
      | none => simp [handleMatched_handled]
      | some g =>
        cases g with
        | noMatch => exact ih
        | exitErr => simp
        | other m => simp
        | replError m f => cases f <;> simp [handleMatched_handled]

/-- Claim C1 witness: once `echoCmd` matches, appending or dropping a
later command cannot change the line's result, and one handler ran. -/
theorem firstMatchWins_w :
    processLine [echoCmd, quitCmd] "hello" = processLine [echoCmd] "hello" ∧
    (processLine [echoCmd, quitCmd] "hello").handled.length ≤ 1 :=
  ⟨firstMatchWins.1 echoCmd [quitCmd] [] "hello" (by decide),
   firstMatchWins.2 [echoCmd, quitCmd] "hello"⟩

/-- Claim C6 counterexample: a matched handler returns the exit signal,
yet `Run` does not return success — the post-run hook's error is surfaced
to the caller. -/
theorem exitSignalClean_cex :
    Repl.run replExitBoom ["quit", "later"]
      = ⟨"> ", ["quit"], RunEnd.err (GoError.other "boom")⟩ ∧
    (Repl.run replExitBoom ["quit", "later"]).outcome ≠ RunEnd.ok := by
  decide

/-- Claim C6 (amended): when a matched Handler returns the exit signal the
loop ends cleanly — remaining commands, the rest of the input, and that
iteration's post-eval hook are all skipped — and the post-run hook then
runs; `Run` returns success provided that hook returns no error. -/
theorem exitSignalClean :
    (∀ (r : Repl) (ctxInput line : String) (rest : List String) (p1 p2 : String),
        runHookM r.preRead ctxInput = (p1, none) →
        printPromptM r.prompt ctxInput = PromptRes.promptOk p2 →
        (processLine r.commands (trimSpace line)).outcome = LineOutcome.exitClean →
        Repl.runLoop r (line :: rest) ctxInput
          = ⟨p1 ++ p2 ++ (processLine r.commands (trimSpace line)).printed,
             (processLine r.commands (trimSpace line)).handled, trimSpace line,
             LoopEnd.clean⟩) ∧
    (∀ (r : Repl) (inputs : List String) (p0 p3 : String),
        runHookM r.preRun "" = (p0, none) →
        (Repl.runLoop r inputs "").outcome = LoopEnd.clean →
        runHookM r.postRun (Repl.runLoop r inputs "").ctxInput = (p3, none) →
        Repl.run r inputs
          = ⟨p0 ++ (Repl.runLoop r inputs "").printed ++ p3,
             (Repl.runLoop r inputs "").handled, RunEnd.ok⟩) := by
  constructor
  · intro r ctxInput line rest p1 p2 h1 h2 h3
    unfold Repl.runLoop
    rw [h1, h2]
    simp only [h3]
  · intro r inputs p0 p3 h0 hclean hpost
    unfold Repl.run
    rw [h0]
    simp only [hclean, hpost]

/-- Claim C6 witness: a repl whose quit command exits on the first line and
whose hooks succeed. -/
theorem exitSignalClean_w :
    Repl.runLoop replExitOk ["quit"] ""
      = ⟨"" ++ "> " ++ (processLine replExitOk.commands (trimSpace "quit")).printed,
         (processLine replExitOk.commands (trimSpace "quit")).handled,
         trimSpace "quit", LoopEnd.clean⟩ ∧
    Repl.run replExitOk ["quit"]
      = ⟨"" ++ (Repl.runLoop replExitOk ["quit"] "").printed ++ "bye",
         (Repl.runLoop replExitOk ["quit"] "").handled, RunEnd.ok⟩ :=
  ⟨exitSignalClean.1 replExitOk "" "quit" [] "" "> " (by decide) (by decide) (by decide),
   exitSignalClean.2 replExitOk ["quit"] "" "bye" (by decide) (by decide) (by decide)⟩

/-- Claim C8: a Matcher returning a non-fatal recoverable `Error` is not a
no-match — the loop prints the message with a trailing newline and still
runs that Command's Handler. -/
theorem matcherRecoverableRuns (c : Command) (rest : List Command) (input m : String)
    (hmatch : c.matchFn input = some (GoError.replError m false)) :
    (processLine (c :: rest) input).handled = [c.name] ∧
    ∃ t, (processLine (c :: rest) input).printed = m ++ "\n" ++ t := by
  have hred : processLine (c :: rest) input = handleMatched c input (m ++ "\n") := by
    unfold processLine
    rw [hmatch]
  rw [hred]
  refine ⟨handleMatched_handled c input (m ++ "\n"), ?_⟩
  obtain ⟨t, ht⟩ := handleMatched_printed c input (m ++ "\n")
  exact ⟨t, by rw [ht, String.append_assoc]⟩

/-- Claim C8 witness: `warnCmd`'s matcher reports a recoverable error; its
handler still runs and the message is printed first. -/
theorem matcherRecoverableRuns_w :
    (processLine [warnCmd] "x").handled = [warnCmd.name] ∧
    ∃ t, (processLine [warnCmd] "x").printed = "careful" ++ "\n" ++ t :=
  matcherRecoverableRuns warnCmd [] "x" "careful" (by decide)

/-- Claim C9: an error from any of the four hooks or from the Prompter —
whatever its classification, including a non-fatal `Error` and `ErrExit`
— terminates `Run` immediately and is returned to the caller verbatim,
with nothing printed for it by the engine. -/
theorem hookErrorsFatal :
    (∀ (e : GoError) (out : String) (cmds : List Command) (pr : Option Prompter)
        (h2 h3 h4 : Option Hook) (inputs : List String),
        Repl.run ⟨cmds, pr, some (fun _ => (out, some e)), h2, h3, h4⟩ inputs
          = ⟨"", [], RunEnd.err e⟩) ∧
    (∀ (e : GoError) (out : String) (cmds : List Command) (pr : Option Prompter)
        (h3 h4 : Option Hook) (inputs : List String),
        Repl.run ⟨cmds, pr, none, some (fun _ => (out, some e)), h3, h4⟩ inputs
          = ⟨"", [], RunEnd.err e⟩) ∧
    (∀ (e : GoError) (out : String) (cmds : List Command)
        (h3 h4 : Option Hook) (inputs : List String),
        Repl.run ⟨cmds, some (fun _ => (out, some e)), none, none, h3, h4⟩ inputs
          = ⟨"", [], RunEnd.err e⟩) ∧
    (∀ (e : GoError) (out pstr : String) (h4 : Option Hook) (line : String)
        (rest : List String),
        Repl.run ⟨[], some (fun _ => (pstr, none)), none, none,
            some (fun _ => (out, some e)), h4⟩ (line :: rest)
          = ⟨pstr, [], RunEnd.err e⟩) ∧
    (∀ (e : GoError) (out pstr : String) (h3 : Option Hook) (line : String)
        (rest : List String),
        Repl.run ⟨[exitAllCmd], some (fun _ => (pstr, none)), none, none, h3,
            some (fun _ => (out, some e))⟩ (line :: rest)
          = ⟨pstr, ["exit-all"], RunEnd.err e⟩) := by
  refine ⟨fun e out cmds pr h2 h3 h4 inputs => rfl, ?_, ?_, ?_, ?_⟩
  · intro e out cmds pr h3 h4 inputs
    unfold Repl.run Repl.runLoop
    rfl
  · intro e out cmds h3 h4 inputs
    unfold Repl.run Repl.runLoop
    rfl
  · intro e out pstr h4 line rest
    unfold Repl.run Repl.runLoop
    simp [runHookM, printPromptM, processLine]
  · intro e out pstr h3 line rest
    unfold Repl.run Repl.runLoop
    simp [runHookM, printPromptM, processLine, handleMatched, exitAllCmd]

/-- Claim C10 counterexample: a `New()`-built repl with no Prompter but a
failing pre-run hook does not panic — `Run` returns the hook's error
before the first loop iteration. -/
theorem prompterMandatory_cex :
    Repl.run replPreRunBoom ["line"] = ⟨"", [], RunEnd.err (GoError.other "x")⟩ ∧
    (Repl.run replPreRunBoom ["line"]).outcome ≠ RunEnd.panicEnd := by
  decide

/-- Claim C10 (amended): a repl without a Prompter panics via a nil
function call on the first loop iteration of `Run`, before any line is
read, regardless of the configured commands and of any hooks that return
no error. -/
theorem prompterMandatory (r : Repl) (p0 p1 : String) (inputs : List String)
    (hprompt : r.prompt = none)
    (hpre : runHookM r.preRun "" = (p0, none))
    (hread : runHookM r.preRead "" = (p1, none)) :
    Repl.run r inputs = ⟨p0 ++ p1, [], RunEnd.panicEnd⟩ := by
  unfold Repl.run Repl.runLoop
  rw [hpre, hread, hprompt]
  rfl

/-- Claim C10 witness: the bare `New()` repl panics on any input stream. -/
theorem prompterMandatory_w :
    Repl.run newRepl ["x"] = ⟨"" ++ "", [], RunEnd.panicEnd⟩ :=
  prompterMandatory newRepl "" "" ["x"] rfl rfl rfl

/-- Claim C7: if compilation of the pattern fails, every invocation of the
`RegexMatcher` closure — not just the first — returns the fatal
`"invalid regular expression"` classification (the cache stays nil, so
each call retries and fails); once compilation succeeds its result is
cached, and a cached matcher never consults the compiler again. -/
theorem regexMatcherFatal :
    (∀ (compile : String → Option Regex) (pattern : String),
        compile pattern = none →
        ∀ (inputs : List String),
          regexMatcherRunAll compile pattern none inputs
            = inputs.map
                (fun _ => some (GoError.replError "invalid regular expression" true))) ∧
    (∀ (compile : String → Option Regex) (pattern : String) (re : Regex) (s : String),
        compile pattern = some re →
        (regexMatcherStep compile pattern none s).1 = some re) ∧
    (∀ (compile compile' : String → Option Regex) (pattern : String) (re : Regex)
        (s : String),
        regexMatcherStep compile pattern (some re) s
          = regexMatcherStep compile' pattern (some re) s) := by
  refine ⟨?_, ?_, ?_⟩
  · intro compile pattern hc inputs
    induction inputs with
    | nil => rfl
    | cons s rest ih => simp [regexMatcherRunAll, regexMatcherStep, hc, ih]
  · intro compile pattern re s hc
    simp [regexMatcherStep, hc]
  · intro compile compile' pattern re s
    rfl

/-- Claim C7 witness: a compiler that rejects the pattern makes both of
two successive invocations fatal. -/
theorem regexMatcherFatal_w :
    regexMatcherRunAll (fun _ => none) "(" none ["a", "b"]
      = [some (GoError.replError "invalid regular expression" true),
         some (GoError.replError "invalid regular expression" true)] := by
  have h := regexMatcherFatal.1 (fun _ => none) "(" rfl ["a", "b"]
  simpa using h
